import Mathlib

/-!
Verification of the LEB Micro-Manager filename parser (`MMParser` in
`bsplugins/leb.py`).  The parser is a deterministic string-transformation
pipeline; we embed it over `List Char`.  All recursive helpers are
structurally recursive so that concrete runs reduce inside the kernel.
-/

set_option maxRecDepth 4000

/-- Python `str.split(sep)` with fuel (fuel starts at the string length, and
each step consumes at least one character, so the fuel never runs out for a
nonempty separator).  `acc` holds the reversed current piece. -/
def splitFuel (pat : List Char) : Nat → List Char → List Char → List (List Char)
  | _, [], acc => [acc.reverse]
  | 0, s, acc => [acc.reverse ++ s]
  | n + 1, c :: rest, acc =>
    if pat.isPrefixOf (c :: rest) then
      acc.reverse :: splitFuel pat n (rest.drop (pat.length - 1)) []
    else
      splitFuel pat n rest (c :: acc)

/-- Python `s.split(pat)` for a nonempty separator `pat`: the pieces between
the non-overlapping, leftmost occurrences of `pat`. -/
def splitOnList (pat s : List Char) : List (List Char) :=
  splitFuel pat s.length s []

/-- Python `s.replace(pat, rep)` with fuel: replace every non-overlapping,
leftmost occurrence of `pat` (nonempty at all call sites) by `rep`. -/
def replaceFuel (pat rep : List Char) : Nat → List Char → List Char
  | 0, s => s
  | _ + 1, [] => []
  | n + 1, c :: rest =>
    if pat.isPrefixOf (c :: rest) then
      rep ++ replaceFuel pat rep n (rest.drop (pat.length - 1))
    else
      c :: replaceFuel pat rep n rest

/-- Python `s.replace(pat, rep)` for a nonempty pattern. -/
def replaceAll (pat rep s : List Char) : List Char :=
  replaceFuel pat rep s.length s

/-- Python `pat in s`: substring containment. -/
def containsSub (pat : List Char) : List Char → Bool
  | [] => pat.isPrefixOf []
  | c :: t => pat.isPrefixOf (c :: t) || containsSub pat t

/-- `re.sub(r'\_\_+', '_', s)`: collapse every run of underscores to one. -/
def collapseUnderscores : List Char → List Char
  | [] => []
  | [c] => [c]
  | c1 :: c2 :: rest =>
    if c1 = '_' ∧ c2 = '_' then collapseUnderscores (c2 :: rest)
    else c1 :: collapseUnderscores (c2 :: rest)

/-- `re.findall(r'\d{1,}', s)`: the maximal runs of digits, in order.
`acc` holds the reversed current run. -/
def digitRunsGo : List Char → List Char → List (List Char)
  | acc, [] => if acc.isEmpty then [] else [acc.reverse]
  | acc, c :: rest =>
    if c.isDigit then digitRunsGo (c :: acc) rest
    else (if acc.isEmpty then [] else [acc.reverse]) ++ digitRunsGo [] rest

/-- The maximal digit runs of a string. -/
def digitRuns (s : List Char) : List (List Char) :=
  digitRunsGo [] s

/-- Decimal value of a digit run. -/
def digitsToNat (s : List Char) : Nat :=
  s.foldl (fun n c => 10 * n + (c.toNat - 48)) 0

/-- Python `int(s)`: strip surrounding whitespace, then an optional sign
followed by a nonempty run of digits.  (Digit-group underscores are not
modelled: the tokens fed to `int` here come from `split('_')` and therefore
never contain an underscore.) -/
def pyInt (s : List Char) : Option Int :=
  let t := ((s.dropWhile Char.isWhitespace).reverse.dropWhile
              Char.isWhitespace).reverse
  match t with
  | '-' :: d =>
    if d ≠ [] ∧ d.all Char.isDigit then some (-(digitsToNat d : Int)) else none
  | '+' :: d =>
    if d ≠ [] ∧ d.all Char.isDigit then some ((digitsToNat d : Int)) else none
  | d =>
    if d ≠ [] ∧ d.all Char.isDigit then some ((digitsToNat d : Int)) else none

/-!
Searches for the three regular expressions of `MMParser`, implemented with
Python `re.search` semantics: scan start positions left to right, at each
position try the first alternative, then the second; quantifiers are greedy
with backtracking.  Each function returns the matched text.
-/

/-- First alternative `(\_<tag>)\_?$` of the channel-removal pattern, tried
at one position: `'_' ++ tag`, an optional `'_'` (taken greedily), then the
end of the string. -/
def chanAlt1 (tag s : List Char) : Option (List Char) :=
  if ('_' :: tag).isPrefixOf s then
    match s.drop (tag.length + 1) with
    | [] => some ('_' :: tag)
    | ['_'] => some ('_' :: (tag ++ ['_']))
    | _ => none
  else none

/-- Second alternative `(^\_)?<tag>(\_)?` of the channel-removal pattern,
tried at one position: an optional leading `'_'` (only at the string start,
taken greedily, backtracked when the tag does not follow), the tag, then an
optional trailing `'_'` (greedy). -/
def chanAlt2 (tag : List Char) (atStart : Bool) (s : List Char) : Option (List Char) :=
  if atStart && ('_' :: tag).isPrefixOf s then
    match s.drop (tag.length + 1) with
    | '_' :: _ => some ('_' :: (tag ++ ['_']))
    | _ => some ('_' :: tag)
  else if tag.isPrefixOf s then
    match s.drop tag.length with
    | '_' :: _ => some (tag ++ ['_'])
    | _ => some tag
  else none

/-- `re.search` for the channel pattern
`((\_<tag>)\_?$)|((^\_)?<tag>(\_)?)`: leftmost start position wins, and at a
given position the first alternative is preferred. -/
def searchChan (tag : List Char) : Bool → List Char → Option (List Char)
  | atStart, [] =>
    match chanAlt1 tag [] with
    | some m => some m
    | none => chanAlt2 tag atStart []
  | atStart, c :: rest =>
    match chanAlt1 tag (c :: rest) with
    | some m => some m
    | none =>
      match chanAlt2 tag atStart (c :: rest) with
      | some m => some m
      | none => searchChan tag false rest

/-- First alternative `Pos\_\d{1,3}\_\d{1,3}` of the position pattern at one
position.  The first `\d{1,3}` is greedy with backtracking followed by `\_`,
which succeeds exactly when the maximal digit run has length 1 to 3 and is
followed by `'_'`; the second `\d{1,3}` greedily takes up to three digits. -/
def posAlt1 (s : List Char) : Option (List Char) :=
  match s with
  | 'P' :: 'o' :: 's' :: '_' :: t =>
    let d1 := t.takeWhile Char.isDigit
    if 1 ≤ d1.length ∧ d1.length ≤ 3 then
      match t.drop d1.length with
      | '_' :: t2 =>
        let d2 := t2.takeWhile Char.isDigit
        if 1 ≤ d2.length then
          some ('P' :: 'o' :: 's' :: '_' :: (d1 ++ '_' :: d2.take 3))
        else none
      | _ => none
    else none
  | _ => none

/-- Second alternative `Pos\d{1,}` of the position pattern at one position:
`"Pos"` followed by a maximal nonempty digit run. -/
def posAlt2 (s : List Char) : Option (List Char) :=
  match s with
  | 'P' :: 'o' :: 's' :: t =>
    let d := t.takeWhile Char.isDigit
    if 1 ≤ d.length then some ('P' :: 'o' :: 's' :: d) else none
  | _ => none

/-- `re.search(r'Pos\_\d{1,3}\_\d{1,3}|Pos\d{1,}', s)`. -/
def searchPos : List Char → Option (List Char)
  | [] =>
    match posAlt1 [] with
    | some m => some m
    | none => posAlt2 []
  | c :: rest =>
    match posAlt1 (c :: rest) with
    | some m => some m
    | none =>
      match posAlt2 (c :: rest) with
      | some m => some m
      | none => searchPos rest

/-- First alternative `(\_<tag>\_?\d+)\_?$` of the widefield pattern at one
position: `'_' ++ tag`, an optional `'_'`, a nonempty maximal digit run, an
optional `'_'`, then the end of the string. -/
def wfAlt1 (tag s : List Char) : Option (List Char) :=
  if ('_' :: tag).isPrefixOf s then
    let r := s.drop (tag.length + 1)
    let u : List Char × List Char :=
      match r with
      | '_' :: t => (['_'], t)
      | _ => ([], r)
    let d := u.2.takeWhile Char.isDigit
    if 1 ≤ d.length then
      match u.2.drop d.length with
      | [] => some (('_' :: tag) ++ u.1 ++ d)
      | ['_'] => some (('_' :: tag) ++ u.1 ++ d ++ ['_'])
      | _ => none
    else none
  else none

/-- Second alternative `((^\_)?<tag>\_*\d+(\_?))` of the widefield pattern at
one position: an optional leading `'_'` (only at the string start), the tag,
a maximal run of underscores, a nonempty maximal digit run, then an optional
trailing `'_'` (greedy). -/
def wfAlt2 (tag : List Char) (atStart : Bool) (s : List Char) : Option (List Char) :=
  let core : List Char → Option (List Char) := fun t =>
    let us := t.takeWhile (fun c => c = '_')
    let r1 := t.dropWhile (fun c => c = '_')
    let d := r1.takeWhile Char.isDigit
    if 1 ≤ d.length then
      match r1.drop d.length with
      | '_' :: _ => some (tag ++ us ++ d ++ ['_'])
      | _ => some (tag ++ us ++ d)
    else none
  if atStart && ('_' :: tag).isPrefixOf s then
    match core (s.drop (tag.length + 1)) with
    | some m => some ('_' :: m)
    | none => if tag.isPrefixOf s then core (s.drop tag.length) else none
  else if tag.isPrefixOf s then core (s.drop tag.length)
  else none

/-- `re.search` for the widefield pattern
`((\_<tag>\_?\d+)\_?$)|((^\_)?<tag>\_*\d+(\_?))`. -/
def searchWf (tag : List Char) : Bool → List Char → Option (List Char)
  | atStart, [] =>
    match wfAlt1 tag [] with
    | some m => some m
    | none => wfAlt2 tag atStart []
  | atStart, c :: rest =>
    match wfAlt1 tag (c :: rest) with
    | some m => some m
    | none =>
      match wfAlt2 tag atStart (c :: rest) with
      | some m => some m
      | none => searchWf tag false rest

/-!
The data model and the parsing pipeline of `MMParser`.
-/

/-- The identifier mapping produced by a parse: the keys of `idDict` in
`MMParser.parseFilename`.  The source's `prefix` key is called `prefixID`
here. -/
structure IdMap where
  prefixID : List Char
  acqID : Option Int
  channelID : Option (List Char)
  dateID : Option (List Char)
  posID : Option (List Nat)
  sliceID : Option Int
deriving DecidableEq, Repr

/-- The keys of `MMParser.channelIdentifier`, in insertion order.  Only the
keys take part in parsing. -/
def channelTags : List (List Char) :=
  ["A488".data, "A647".data, "A750".data, "DAPI".data, "Cy5".data]

/-- `MMParser.widefieldIdentifier`. -/
def widefieldTags : List (List Char) :=
  ["WF".data]

/-- The literal split marker of `MMParser._parse`. -/
def mmStackMarker : List Char :=
  "_MMStack_".data

/-- `filename.lstrip('_')` followed by `filename.split('_MMStack_')` and the
destructuring `prefixRaw, suffixRaw = ...`, which requires exactly two
pieces (a `ValueError` otherwise). -/
def splitMM (filename : List Char) : Option (List Char × List Char) :=
  let fn := filename.dropWhile (fun c => c = '_')
  match splitOnList mmStackMarker fn with
  | [a, b] => some (a, b)
  | _ => none

/-- The acquisition-ID step of `MMParser._parse`: split the head on `'_'`;
with `extractAcqID` the last token must be an integer and the rest rejoined
is the raw prefix, otherwise the acquisition ID stays unset and all tokens
are rejoined. -/
def extractAcq (prefixRaw : List Char) (extractAcqID : Bool) :
    Option (Option Int × List Char) :=
  let parts := splitOnList ['_'] prefixRaw
  if extractAcqID then
    match parts.getLast? with
    | none => none
    | some lastTok =>
      match pyInt lastTok with
      | none => none
      | some n => some (some n, List.intercalate ['_'] parts.dropLast)
  else
    some (none, List.intercalate ['_'] parts)

/-- The channel step of `MMParser._parse` on the cleaned prefix: collect
every known channel tag occurring as a substring; `assert len <= 1`; with one
match, search the channel pattern and delete every occurrence of the matched
text (`str.replace`); the search cannot return `None` here, but a `None`
result is modelled as failure (the `AttributeError` it would raise). -/
def resolveChannel (p : List Char) : Option (Option (List Char) × List Char) :=
  let found := channelTags.filter (fun c => containsSub c p)
  if 2 ≤ found.length then none
  else
    match found with
    | [] => some (none, p)
    | c :: _ =>
      match searchChan c true p with
      | none => none
      | some m => some (some c, replaceAll m [] p)

/-- The position step of `MMParser._parse` on the tail after the marker:
search the position pattern and convert the digit runs of the match. -/
def extractPos (suffixRaw : List Char) : Option (List Nat) :=
  match searchPos suffixRaw with
  | none => none
  | some m => some ((digitRuns m).map digitsToNat)

/-- `MMParser._parse`: the generic decomposition.  Returns `none` when the
Python method would raise (missing or repeated marker, non-numeric
acquisition token, more than one channel tag). -/
def MMParse (filename : List Char) (extractAcqID : Bool) : Option IdMap :=
  match splitMM filename with
  | none => none
  | some (prefixRaw, suffixRaw) =>
    match extractAcq prefixRaw extractAcqID with
    | none => none
    | some (acqID, rawP) =>
      match resolveChannel (collapseUnderscores rawP) with
      | none => none
      | some (channelID, p2) =>
        some
          { prefixID := p2.map (fun c => if c = ' ' then '_' else c)
            acqID := acqID
            channelID := channelID
            dateID := none
            posID := extractPos suffixRaw
            sliceID := none }

/-- The cleaned prefix of a filename: the intermediate value of
`MMParser._parse` right after `re.sub(r'\_\_+', '_', prefix)`, on which the
channel tags are looked up. -/
def cleanedPrefixOf (filename : List Char) (extractAcqID : Bool) :
    Option (List Char) :=
  match splitMM filename with
  | none => none
  | some (prefixRaw, _) =>
    match extractAcq prefixRaw extractAcqID with
    | none => none
    | some (_, rawP) => some (collapseUnderscores rawP)

/-- `MMParser._parseWidefieldImage`: run the generic decomposition without an
acquisition ID, then resolve the acquisition ID from a widefield tag in the
prefix.  The boolean records whether the no-widefield-ID warning was issued.
`none` models an exception (including the two `assert`s and the
`AttributeError` when the tag search fails). -/
def MMParseWidefield (filename : List Char) : Option (IdMap × Bool) :=
  match MMParse filename false with
  | none => none
  | some r =>
    let wfs := widefieldTags.filter (fun w => containsSub w r.prefixID)
    if 2 ≤ wfs.length then none
    else
      match wfs with
      | [] => some ({ r with acqID := none }, true)
      | w :: _ =>
        match searchWf w true r.prefixID with
        | none => none
        | some m =>
          match digitRuns m with
          | [d] =>
            some ({ r with
                      prefixID := replaceAll m [] r.prefixID
                      acqID := some ((digitsToNat d : Int)) }, false)
          | _ => none

/-!
The parser object: state, lifecycle and `parseFilename`.
-/

/-- The dataset handle built by `parseFilename`.  Construction and file I/O
of the dataset types are external collaborators; only the fields the parser
itself sets are modelled. -/
structure Dataset where
  datasetType : List Char
  datasetIDs : IdMap
deriving DecidableEq, Repr

/-- The mutable state of an `MMParser` instance. -/
structure ParserState where
  isInit : Bool
  held : Option Dataset
deriving DecidableEq, Repr

/-- The errors `parseFilename` and the `dataset` accessor can raise. -/
inductive ParserError where
  | DatasetTypeError
  | ParseFilenameFailure
  | ParserNotInitializedError
deriving DecidableEq, Repr

/-- The `initialized` property setter: store the flag, and on `False` also
discard the held dataset (`self.dataset = None`). -/
def setInit (st : ParserState) (value : Bool) : ParserState :=
  if value then { st with isInit := true }
  else { isInit := false, held := none }

/-- The `dataset` property getter: the held reference when initialized,
`ParserNotInitializedError` otherwise. -/
def getDataset (st : ParserState) : Except ParserError (Option Dataset) :=
  if st.isInit then Except.ok st.held
  else Except.error ParserError.ParserNotInitializedError

/-- Modelled from the spec and `pathlib` (an external collaborator):
`Path(filename).name`, the final nonempty component of the path.  The
special components `'.'` and `'..'` are not modelled; no parser input uses
them. -/
def pyName (s : List Char) : List Char :=
  ((splitOnList ['/'] s).reverse.find? (fun p => !p.isEmpty)).getD []

/-- The outcome of one `parseFilename` call: the new parser state, the
raised error if any, and whether the no-widefield-ID warning was issued. -/
structure ParseOutcome where
  state : ParserState
  error : Option ParserError
  warned : Bool
deriving DecidableEq, Repr

/-- `MMParser.parseFilename`: reset to uninitialized, check the registry,
keep the final path component, dispatch to the widefield or generic
decomposition (any exception becomes `ParseFilenameFailure`), then hold the
new dataset and become initialized.  The `readData` step only touches the
external dataset object and never changes the outcome modelled here. -/
def parseFilename (registry : List (List Char)) (st : ParserState)
    (filename : List Char) (datasetType : List Char) : ParseOutcome :=
  let st1 := setInit st false
  if datasetType ∈ registry then
    let name := pyName filename
    if datasetType = "WidefieldImage".data then
      match MMParseWidefield name with
      | none => ⟨st1, some ParserError.ParseFilenameFailure, false⟩
      | some (ids, warned) =>
        ⟨⟨true, some ⟨datasetType, ids⟩⟩, none, warned⟩
    else
      match MMParse name true with
      | none => ⟨st1, some ParserError.ParseFilenameFailure, false⟩
      | some ids => ⟨⟨true, some ⟨datasetType, ids⟩⟩, none, false⟩
  else ⟨st1, some ParserError.DatasetTypeError, false⟩

/-!
Helper lemmas about the string primitives.
-/

theorem isPrefixOf_append_of_isPrefixOf {pat t : List Char} (r : List Char)
    (h : pat.isPrefixOf t = true) : pat.isPrefixOf (t ++ r) = true := by
  rw [List.isPrefixOf_iff_prefix] at h ⊢
  exact h.trans (t.prefix_append r)

theorem containsSub_nil_pat (s : List Char) : containsSub [] s = true := by
  induction s with
  | nil => rfl
  | cons c t ih => simp [containsSub, ih]

theorem containsSub_append_right {pat t : List Char} (r : List Char)
    (h : containsSub pat t = true) : containsSub pat (t ++ r) = true := by
  induction t with
  | nil =>
    simp [containsSub] at h
    have : pat = [] := by
      cases pat with
      | nil => rfl
      | cons c cs => simp [List.isPrefixOf] at h
    subst this
    exact containsSub_nil_pat r
  | cons c t' ih =>
    simp only [containsSub, Bool.or_eq_true] at h
    rcases h with h | h
    · simp only [List.cons_append, containsSub, Bool.or_eq_true]
      exact Or.inl (isPrefixOf_append_of_isPrefixOf r h)
    · simp only [List.cons_append, containsSub, Bool.or_eq_true]
      exact Or.inr (ih h)

theorem containsSub_append_left {pat t : List Char} (l : List Char)
    (h : containsSub pat t = true) : containsSub pat (l ++ t) = true := by
  induction l with
  | nil => simpa using h
  | cons c l' ih =>
    simp only [List.cons_append, containsSub, Bool.or_eq_true]
    exact Or.inr ih

theorem containsSub_of_middle {pat t : List Char} (l r : List Char)
    (h : containsSub pat t = true) : containsSub pat (l ++ (t ++ r)) = true :=
  containsSub_append_left l (containsSub_append_right r h)

theorem containsSub_of_dropWhile {pat : List Char} (p : Char → Bool)
    {s : List Char} (h : containsSub pat (s.dropWhile p) = true) :
    containsSub pat s = true := by
  induction s with
  | nil => simpa using h
  | cons c t ih =>
    by_cases hc : p c
    · rw [List.dropWhile_cons_of_pos hc] at h
      simp only [containsSub, Bool.or_eq_true]
      exact Or.inr (ih h)
    · rwa [List.dropWhile_cons_of_neg hc] at h

theorem splitFuel_not_contains {pat : List Char} :
    ∀ (n : Nat) (s acc : List Char), s.length ≤ n →
      containsSub pat s = false →
      splitFuel pat n s acc = [acc.reverse ++ s] := by
  intro n
  induction n with
  | zero =>
    intro s acc hn _
    have : s = [] := List.length_eq_zero.mp (Nat.le_zero.mp hn)
    subst this
    simp [splitFuel]
  | succ n ih =>
    intro s acc hn hc
    cases s with
    | nil => simp [splitFuel]
    | cons c rest =>
      simp only [containsSub, Bool.or_eq_false_iff] at hc
      obtain ⟨h1, h2⟩ := hc
      simp only [splitFuel, h1, Bool.false_eq_true, if_false]
      rw [ih rest (c :: acc) (Nat.le_of_succ_le_succ hn) h2]
      simp

theorem splitOnList_not_contains {pat s : List Char}
    (h : containsSub pat s = false) : splitOnList pat s = [s] := by
  unfold splitOnList
  rw [splitFuel_not_contains s.length s [] (Nat.le_refl _) h]
  simp

theorem splitFuel_mem_piece {pat : List Char} :
    ∀ (n : Nat) (s acc piece : List Char),
      piece ∈ splitFuel pat n s acc →
      ∃ l r, acc.reverse ++ s = l ++ (piece ++ r) := by
  intro n
  induction n with
  | zero =>
    intro s acc piece h
    cases s with
    | nil =>
      simp [splitFuel] at h
      exact ⟨[], [], by simp [h]⟩
    | cons c rest =>
      simp [splitFuel] at h
      exact ⟨[], [], by simp [h]⟩
  | succ n ih =>
    intro s acc piece h
    cases s with
    | nil =>
      simp [splitFuel] at h
      exact ⟨[], [], by simp [h]⟩
    | cons c rest =>
      simp only [splitFuel] at h
      by_cases hp : pat.isPrefixOf (c :: rest) = true
      · rw [if_pos hp] at h
        rcases List.mem_cons.mp h with h | h
        · exact ⟨[], c :: rest, by simp [h]⟩
        · obtain ⟨l, r, hlr⟩ := ih (rest.drop (pat.length - 1)) [] piece h
          simp only [List.reverse_nil, List.nil_append] at hlr
          refine ⟨acc.reverse ++ c :: rest.take (pat.length - 1) ++ l, r, ?_⟩
          have : rest = rest.take (pat.length - 1) ++ rest.drop (pat.length - 1) :=
            (List.take_append_drop _ _).symm
          calc acc.reverse ++ c :: rest
              = acc.reverse ++ c :: (rest.take (pat.length - 1) ++
                  rest.drop (pat.length - 1)) := by rw [← this]
            _ = (acc.reverse ++ c :: rest.take (pat.length - 1) ++ l) ++
                  (piece ++ r) := by rw [hlr]; simp
      · rw [if_neg hp] at h
        obtain ⟨l, r, hlr⟩ := ih rest (c :: acc) piece h
        refine ⟨l, r, ?_⟩
        simpa using hlr

theorem mem_splitOnList_piece {pat s piece : List Char}
    (h : piece ∈ splitOnList pat s) : ∃ l r, s = l ++ (piece ++ r) := by
  have := @splitFuel_mem_piece pat s.length s [] piece h
  simpa using this

theorem containsSub_pyName {pat s : List Char}
    (h : containsSub pat (pyName s) = true) : containsSub pat s = true := by
  unfold pyName at h
  cases hf : (splitOnList ['/'] s).reverse.find? (fun p => !p.isEmpty) with
  | none =>
    rw [hf] at h
    simp at h
    cases pat with
    | nil => exact containsSub_nil_pat s
    | cons c cs => simp [containsSub, List.isPrefixOf] at h
  | some piece =>
    rw [hf] at h
    simp at h
    have hmem : piece ∈ (splitOnList ['/'] s).reverse := List.mem_of_find?_eq_some hf
    have hmem' : piece ∈ splitOnList ['/'] s := List.mem_reverse.mp hmem
    obtain ⟨l, r, hlr⟩ := mem_splitOnList_piece hmem'
    rw [hlr]
    exact containsSub_of_middle l r h

theorem splitMM_none_of_not_contains {filename : List Char}
    (h : containsSub mmStackMarker filename = false) : splitMM filename = none := by
  have hdrop : containsSub mmStackMarker
      (filename.dropWhile (fun c => c = '_')) = false := by
    cases hc : containsSub mmStackMarker (filename.dropWhile (fun c => c = '_')) with
    | false => rfl
    | true => rw [containsSub_of_dropWhile _ hc] at h; exact absurd h (by simp)
  unfold splitMM
  show (match splitOnList mmStackMarker (filename.dropWhile (fun c => c = '_')) with
        | [a, b] => some (a, b)
        | _ => none) = none
  rw [splitOnList_not_contains hdrop]

theorem splitMM_none_of_three_pieces {filename : List Char}
    (h : 3 ≤ (splitOnList mmStackMarker
        (filename.dropWhile (fun c => c = '_'))).length) :
    splitMM filename = none := by
  unfold splitMM
  show (match splitOnList mmStackMarker (filename.dropWhile (fun c => c = '_')) with
        | [a, b] => some (a, b)
        | _ => none) = none
  revert h
  generalize splitOnList mmStackMarker (filename.dropWhile (fun c => c = '_')) = e
  intro h
  rcases e with _ | ⟨a, _ | ⟨b, _ | ⟨c, l⟩⟩⟩
  · simp at h
  · simp at h
  · simp at h
  · rfl

theorem MMParse_none_of_splitMM_none {filename : List Char} (b : Bool)
    (h : splitMM filename = none) : MMParse filename b = none := by
  unfold MMParse
  rw [h]

theorem MMParseWidefield_none_of_MMParse_none {filename : List Char}
    (h : MMParse filename false = none) : MMParseWidefield filename = none := by
  unfold MMParseWidefield
  rw [h]

theorem mem_of_mem_replaceFuel {pat : List Char} :
    ∀ (n : Nat) (s : List Char) (c : Char),
      c ∈ replaceFuel pat [] n s → c ∈ s := by
  intro n
  induction n with
  | zero => intro s c h; simpa [replaceFuel] using h
  | succ n ih =>
    intro s c h
    cases s with
    | nil => simp [replaceFuel] at h
    | cons a rest =>
      simp only [replaceFuel] at h
      by_cases hp : pat.isPrefixOf (a :: rest) = true
      · rw [if_pos hp] at h
        simp only [List.nil_append] at h
        have := ih _ _ h
        have hd : c ∈ rest := List.drop_subset _ _ this
        exact List.mem_cons_of_mem a hd
      · rw [if_neg hp] at h
        rcases List.mem_cons.mp h with h | h
        · exact h ▸ List.mem_cons_self a rest
        · exact List.mem_cons_of_mem a (ih _ _ h)

theorem mem_of_mem_replaceAll {pat s : List Char} {c : Char}
    (h : c ∈ replaceAll pat [] s) : c ∈ s :=
  mem_of_mem_replaceFuel s.length s c h

theorem no_space_MMParse {filename : List Char} {b : Bool} {r : IdMap}
    (h : MMParse filename b = some r) : ' ' ∉ r.prefixID := by
  unfold MMParse at h
  split at h
  · exact absurd h (by simp)
  · split at h
    · exact absurd h (by simp)
    · split at h
      · exact absurd h (by simp)
      · rename_i p2 heq
        simp only [Option.some.injEq] at h
        subst h
        intro hmem
        simp only [List.mem_map] at hmem
        obtain ⟨c, _, hc⟩ := hmem
        by_cases hcs : c = ' '
        · rw [if_pos hcs] at hc; exact absurd hc (by decide)
        · rw [if_neg hcs] at hc; exact hcs hc

theorem no_space_MMParseWidefield {filename : List Char} {r : IdMap} {w : Bool}
    (h : MMParseWidefield filename = some (r, w)) : ' ' ∉ r.prefixID := by
  unfold MMParseWidefield at h
  split at h
  · exact absurd h (by simp)
  · rename_i r0 heq0
    have hr0 : ' ' ∉ r0.prefixID := no_space_MMParse heq0
    simp only [] at h
    split at h
    · exact absurd h (by simp)
    · split at h
      · simp only [Option.some.injEq, Prod.mk.injEq] at h
        obtain ⟨hr, -⟩ := h
        subst hr
        simpa using hr0
      · split at h
        · exact absurd h (by simp)
        · rename_i m hsearch
          split at h
          · rename_i d hd
            simp only [Option.some.injEq, Prod.mk.injEq] at h
            obtain ⟨hr, -⟩ := h
            subst hr
            intro hmem
            simp only at hmem
            exact hr0 (mem_of_mem_replaceAll hmem)
          · exact absurd h (by simp)

theorem resolveChannel_none_of_two {p : List Char}
    (h : 2 ≤ (channelTags.filter (fun c => containsSub c p)).length) :
    resolveChannel p = none := by
  unfold resolveChannel
  simp only []
  rw [if_pos h]

theorem c4_aux (fn : List Char) (b : Bool) (cp : List Char)
    (h1 : cleanedPrefixOf fn b = some cp)
    (h2 : 2 ≤ (channelTags.filter (fun c => containsSub c cp)).length) :
    MMParse fn b = none ∧ (b = false → MMParseWidefield fn = none) := by
  unfold cleanedPrefixOf at h1
  split at h1
  · exact absurd h1 (by simp)
  · rename_i praw suf heq1
    split at h1
    · exact absurd h1 (by simp)
    · rename_i acq rawp heq2
      simp only [Option.some.injEq] at h1
      subst h1
      have hm : MMParse fn b = none := by
        simp only [MMParse, heq1, heq2, resolveChannel_none_of_two h2]
      refine ⟨hm, fun hb => ?_⟩
      subst hb
      exact MMParseWidefield_none_of_MMParse_none hm

theorem c8_aux (fn : List Char) (b : Bool) (r : IdMap) (praw suf : List Char)
    (hs : splitMM fn = some (praw, suf))
    (hp : MMParse fn b = some r) :
    r.posID = match searchPos suf with
      | some m => some ((digitRuns m).map digitsToNat)
      | none => none := by
  simp only [MMParse, hs] at hp
  split at hp
  · exact absurd hp (by simp)
  · split at hp
    · exact absurd hp (by simp)
    · simp only [Option.some.injEq] at hp
      subst hp
      simp only [extractPos]
      cases hsp : searchPos suf <;> simp [hsp]

theorem c9_aux (fn : List Char) (r : IdMap)
    (h1 : MMParse fn false = some r)
    (h2 : containsSub "WF".data r.prefixID = false) :
    MMParseWidefield fn = some ({ r with acqID := none }, true) := by
  have hw : widefieldTags.filter (fun w => containsSub w r.prefixID) = [] := by
    simp [widefieldTags, h2]
  simp only [MMParseWidefield, h1, hw]
  simp

theorem parseFilename_fail (registry : List (List Char)) (st : ParserState)
    (fn t : List Char) (hmem : t ∈ registry)
    (hw : MMParseWidefield (pyName fn) = none)
    (hg : MMParse (pyName fn) true = none) :
    parseFilename registry st fn t =
      ⟨⟨false, none⟩, some ParserError.ParseFilenameFailure, false⟩ := by
  unfold parseFilename
  simp only []
  rw [if_pos hmem]
  by_cases ht : t = "WidefieldImage".data
  · rw [if_pos ht, hw]
    simp [setInit]
  · rw [if_neg ht, hg]
    simp [setInit]


/-!
The claims.
-/

/-- Claim C1: for the filename
"Cos7_Microtubules_A647_3_MMStack_Pos0_locResults.dat" parsed with a
registered generic dataset type, the generic decomposition returns the
identifier mapping with prefixID "Cos7_Microtubules", acqID 3, channelID
"A647", posID (0,), dateID and sliceID null, and the parser ends
initialized holding that dataset. -/
theorem c1_generic_roundtrip :
    MMParse "Cos7_Microtubules_A647_3_MMStack_Pos0_locResults.dat".data true =
      some ⟨"Cos7_Microtubules".data, some 3, some "A647".data, none,
            some [0], none⟩ ∧
    parseFilename ["TestType".data] ⟨false, none⟩
        "Cos7_Microtubules_A647_3_MMStack_Pos0_locResults.dat".data
        "TestType".data =
      ⟨⟨true, some ⟨"TestType".data,
          ⟨"Cos7_Microtubules".data, some 3, some "A647".data, none,
           some [0], none⟩⟩⟩, none, false⟩ :=
  ⟨by decide, by decide⟩

/-- Claim C2: for the filename "HeLa_Control_A647_WF13_MMStack_Pos0.ome.tif"
parsed with dataset type "WidefieldImage", the widefield decomposition
returns prefixID "HeLa_Control", acqID 13 (from the digits adjacent to the
widefield tag "WF"), channelID "A647", posID (0,), dateID and sliceID
null. -/
theorem c2_widefield_roundtrip :
    MMParseWidefield "HeLa_Control_A647_WF13_MMStack_Pos0.ome.tif".data =
      some (⟨"HeLa_Control".data, some 13, some "A647".data, none,
             some [0], none⟩, false) ∧
    parseFilename ["WidefieldImage".data] ⟨false, none⟩
        "HeLa_Control_A647_WF13_MMStack_Pos0.ome.tif".data
        "WidefieldImage".data =
      ⟨⟨true, some ⟨"WidefieldImage".data,
          ⟨"HeLa_Control".data, some 13, some "A647".data, none,
           some [0], none⟩⟩⟩, none, false⟩ :=
  ⟨by decide, by decide⟩

/-- Claim C3, counterexample: parsing
"A_Cy5B_Cy5_C_3_MMStack_Pos0.dat" succeeds (both at the decomposition and
at the parseFilename level), yet the emitted prefix "A_B__C" contains a run
of two consecutive separators: channel-tag removal deletes every occurrence
of the matched text "Cy5" and thereby reintroduces a double underscore
after the collapse step.  This refutes the claim as stated. -/
theorem c3_counterexample :
    MMParse "A_Cy5B_Cy5_C_3_MMStack_Pos0.dat".data true =
      some ⟨"A_B__C".data, some 3, some "Cy5".data, none, some [0], none⟩ ∧
    containsSub "__".data "A_B__C".data = true ∧
    (parseFilename ["TestType".data] ⟨false, none⟩
        "A_Cy5B_Cy5_C_3_MMStack_Pos0.dat".data "TestType".data).error =
      none :=
  ⟨by decide, by decide, by decide⟩
/-- Claim C3, amended: for every filename on which parsing succeeds
(generic or widefield), the emitted prefix contains no space character.
The other half of the original claim (no run of two or more consecutive
separators) is false, as the counterexample shows. -/
theorem c3_no_space_in_emitted (registry : List (List Char)) (st : ParserState)
    (filename datasetType : List Char) (ds : Dataset)
    (h : (parseFilename registry st filename datasetType).state.held = some ds) :
    ' ' ∉ ds.datasetIDs.prefixID := by
  unfold parseFilename at h
  simp only [] at h
  split at h
  · split at h
    · split at h
      · simp [setInit] at h
      · rename_i pr heq
        simp only [Option.some.injEq] at h
        subst h
        exact no_space_MMParseWidefield heq
    · split at h
      · simp [setInit] at h
      · rename_i ids heq
        simp only [Option.some.injEq] at h
        subst h
        exact no_space_MMParse heq
  · simp [setInit] at h


/-- Claim C3 witness: a concrete successful parse (the space in
"my dataset" is converted to an underscore) at which the amended theorem
applies. -/
theorem c3_no_space_in_emitted_witness :
    (parseFilename ["TestType".data] ⟨false, none⟩
        "my dataset_A647_1_MMStack_Pos0_locResults.dat".data
        "TestType".data).state.held =
      some ⟨"TestType".data,
        ⟨"my_dataset".data, some 1, some "A647".data, none, some [0], none⟩⟩ ∧
    ' ' ∉ (Dataset.mk "TestType".data
        ⟨"my_dataset".data, some 1, some "A647".data, none, some [0],
         none⟩).datasetIDs.prefixID :=
  ⟨by decide,
   c3_no_space_in_emitted ["TestType".data] ⟨false, none⟩
     "my dataset_A647_1_MMStack_Pos0_locResults.dat".data "TestType".data
     ⟨"TestType".data,
      ⟨"my_dataset".data, some 1, some "A647".data, none, some [0], none⟩⟩
     (by decide)⟩

/-- Claim C4: for every filename whose cleaned prefix contains two or more
distinct recognized channel tags as substrings, parsing does not silently
pick one: the at-most-one-match assertion fails, the decomposition raises,
and the parseFilename call fails with ParseFilenameFailure, leaving the
parser uninitialized. -/
theorem c4_ambiguous_channel_fails (registry : List (List Char))
    (st : ParserState) (fn t cp : List Char) (b : Bool)
    (h1 : t ∈ registry)
    (hb : b = (if t = "WidefieldImage".data then false else true))
    (h2 : cleanedPrefixOf (pyName fn) b = some cp)
    (h3 : 2 ≤ (channelTags.filter (fun c => containsSub c cp)).length) :
    parseFilename registry st fn t =
      ⟨⟨false, none⟩, some ParserError.ParseFilenameFailure, false⟩ := by
  unfold parseFilename
  simp only []
  rw [if_pos h1]
  by_cases ht : t = "WidefieldImage".data
  · rw [if_pos ht]
    simp only [ht, if_pos rfl] at hb
    subst hb
    have hw : MMParseWidefield (pyName fn) = none :=
      (c4_aux (pyName fn) false cp h2 h3).2 rfl
    rw [hw]
    simp [setInit]
  · rw [if_neg ht]
    simp only [if_neg ht] at hb
    subst hb
    have hg : MMParse (pyName fn) true = none :=
      (c4_aux (pyName fn) true cp h2 h3).1
    rw [hg]
    simp [setInit]

/-- Claim C4 witness: the cleaned prefix "A647_DAPI" contains two channel
tags, and the parse fails. -/
theorem c4_ambiguous_channel_fails_witness :
    parseFilename ["TestType".data] ⟨false, none⟩
        "A647_DAPI_3_MMStack_Pos0.dat".data "TestType".data =
      ⟨⟨false, none⟩, some ParserError.ParseFilenameFailure, false⟩ :=
  c4_ambiguous_channel_fails ["TestType".data] ⟨false, none⟩
    "A647_DAPI_3_MMStack_Pos0.dat".data "TestType".data "A647_DAPI".data
    true (by decide) (by decide) (by decide) (by decide)

/-- Claim C5: for every filename that does not contain the literal marker
"_MMStack_", parseFilename with any registered dataset type fails with the
uniform ParseFilenameFailure kind, and the parser remains uninitialized. -/
theorem c5_missing_marker_fails (registry : List (List Char))
    (st : ParserState) (fn t : List Char) (h1 : t ∈ registry)
    (h2 : containsSub mmStackMarker fn = false) :
    parseFilename registry st fn t =
      ⟨⟨false, none⟩, some ParserError.ParseFilenameFailure, false⟩ := by
  have hname : containsSub mmStackMarker (pyName fn) = false := by
    cases hc : containsSub mmStackMarker (pyName fn) with
    | false => rfl
    | true => rw [containsSub_pyName hc] at h2; exact absurd h2 (by simp)
  have hsplit := splitMM_none_of_not_contains hname
  exact parseFilename_fail registry st fn t h1
    (MMParseWidefield_none_of_MMParse_none
      (MMParse_none_of_splitMM_none false hsplit))
    (MMParse_none_of_splitMM_none true hsplit)

/-- Claim C5 witness: the spec's example "blablabla 214" (no marker) fails
with ParseFilenameFailure. -/
theorem c5_missing_marker_fails_witness :
    parseFilename ["TestType".data] ⟨false, none⟩ "blablabla 214".data
        "TestType".data =
      ⟨⟨false, none⟩, some ParserError.ParseFilenameFailure, false⟩ :=
  c5_missing_marker_fails ["TestType".data] ⟨false, none⟩
    "blablabla 214".data "TestType".data (by decide) (by decide)

/-- Claim C6: for every datasetType not in the externally supplied
registry, parseFilename raises the unregistered-type error
(DatasetTypeError in the source) before any decomposition runs, and the
call ends with the parser uninitialized and holding no dataset, whatever
state it was in before. -/
theorem c6_unregistered_type_aborts (registry : List (List Char))
    (st : ParserState) (fn t : List Char) (h : t ∉ registry) :
    parseFilename registry st fn t =
      ⟨⟨false, none⟩, some ParserError.DatasetTypeError, false⟩ := by
  unfold parseFilename
  simp only []
  rw [if_neg h]
  simp [setInit]

/-- Claim C6 witness: an unregistered type aborts even when a previous
parse had succeeded and the parser held a dataset. -/
theorem c6_unregistered_type_aborts_witness :
    parseFilename ["TestType".data]
        ⟨true, some ⟨"TestType".data,
          ⟨"Cos7_Microtubules".data, some 3, some "A647".data, none,
           some [0], none⟩⟩⟩
        "Cos7_Microtubules_A647_3_MMStack_Pos0_locResults.dat".data
        "Localizations_Cool".data =
      ⟨⟨false, none⟩, some ParserError.DatasetTypeError, false⟩ :=
  c6_unregistered_type_aborts ["TestType".data]
    ⟨true, some ⟨"TestType".data,
      ⟨"Cos7_Microtubules".data, some 3, some "A647".data, none,
       some [0], none⟩⟩⟩
    "Cos7_Microtubules_A647_3_MMStack_Pos0_locResults.dat".data
    "Localizations_Cool".data (by decide)

/-- Claim C7: whenever the initialized flag is false, accessing the dataset
raises ParserNotInitializedError; moreover setting the flag to false
discards the held dataset, so a caller can never observe a dataset
alongside an uninitialized parser. -/
theorem c7_uninitialized_guard (st : ParserState) (h : st.isInit = false) :
    getDataset st = Except.error ParserError.ParserNotInitializedError ∧
    (setInit st false).held = none ∧
    (setInit st false).isInit = false ∧
    getDataset (setInit st false) =
      Except.error ParserError.ParserNotInitializedError := by
  refine ⟨?_, ?_, ?_, ?_⟩
  · simp [getDataset, h]
  · simp [setInit]
  · simp [setInit]
  · simp [getDataset, setInit]

/-- Claim C7 witness: a state whose flag is false (even one that still
holds a dataset reference) always fails the access and is cleared by the
setter. -/
theorem c7_uninitialized_guard_witness :
    getDataset ⟨false, some ⟨"TestType".data,
        ⟨"Cos7_Microtubules".data, some 3, some "A647".data, none,
         some [0], none⟩⟩⟩ =
      Except.error ParserError.ParserNotInitializedError ∧
    (setInit ⟨false, some ⟨"TestType".data,
        ⟨"Cos7_Microtubules".data, some 3, some "A647".data, none,
         some [0], none⟩⟩⟩ false).held = none ∧
    (setInit ⟨false, some ⟨"TestType".data,
        ⟨"Cos7_Microtubules".data, some 3, some "A647".data, none,
         some [0], none⟩⟩⟩ false).isInit = false ∧
    getDataset (setInit ⟨false, some ⟨"TestType".data,
        ⟨"Cos7_Microtubules".data, some 3, some "A647".data, none,
         some [0], none⟩⟩⟩ false) =
      Except.error ParserError.ParserNotInitializedError :=
  c7_uninitialized_guard ⟨false, some ⟨"TestType".data,
    ⟨"Cos7_Microtubules".data, some 3, some "A647".data, none,
     some [0], none⟩⟩⟩ rfl

/-- Claim C8: for every parsed filename, posID is determined from the tail
after the "_MMStack_" marker by the position search (the dual pattern
yields the two integers, the single pattern yields one integer, no match
yields null); in particular
"HeLa_Actin_4_MMStack_1-Pos_012_003_locResults.dat" yields posID (12,3),
acqID 4, channelID null and prefixID "HeLa_Actin". -/
theorem c8_position_extraction :
    (∀ (fn : List Char) (b : Bool) (r : IdMap) (praw suf : List Char),
      splitMM fn = some (praw, suf) → MMParse fn b = some r →
      r.posID =
        match searchPos suf with
        | some m => some ((digitRuns m).map digitsToNat)
        | none => none) ∧
    MMParse "HeLa_Actin_4_MMStack_1-Pos_012_003_locResults.dat".data true =
      some ⟨"HeLa_Actin".data, some 4, none, none, some [12, 3], none⟩ :=
  ⟨c8_aux, by decide⟩

/-- Claim C8 witness: the position characterization applied at the spec's
dual-position example. -/
theorem c8_position_extraction_witness :
    (⟨"HeLa_Actin".data, some 4, none, none, some [12, 3], none⟩ :
        IdMap).posID =
      match searchPos "1-Pos_012_003_locResults.dat".data with
      | some m => some ((digitRuns m).map digitsToNat)
      | none => none :=
  c8_position_extraction.1
    "HeLa_Actin_4_MMStack_1-Pos_012_003_locResults.dat".data true
    ⟨"HeLa_Actin".data, some 4, none, none, some [12, 3], none⟩
    "HeLa_Actin_4".data "1-Pos_012_003_locResults.dat".data
    (by decide) (by decide)

/-- Claim C9: for every filename parsed as a widefield image whose prefix
contains no recognized widefield tag, the parse still completes with acqID
null, a non-fatal warning is issued, and through parseFilename the parser
ends initialized. -/
theorem c9_widefield_no_tag_warns (fn : List Char) (r : IdMap)
    (h1 : MMParse fn false = some r)
    (h2 : containsSub "WF".data r.prefixID = false) :
    MMParseWidefield fn = some ({ r with acqID := none }, true) ∧
    ∀ (registry : List (List Char)) (st : ParserState),
      "WidefieldImage".data ∈ registry → pyName fn = fn →
      parseFilename registry st fn "WidefieldImage".data =
        ⟨⟨true, some ⟨"WidefieldImage".data, { r with acqID := none }⟩⟩,
          none, true⟩ := by
  have hwf := c9_aux fn r h1 h2
  refine ⟨hwf, fun registry st hmem hname => ?_⟩
  unfold parseFilename
  simp only []
  rw [if_pos hmem]
  simp only [if_true]
  rw [hname, hwf]

/-- Claim C9 witness: "HeLa_Control_MMStack_Pos0.ome.tif" has no "WF" tag;
the widefield parse succeeds with acqID null and the warning flag set. -/
theorem c9_widefield_no_tag_warns_witness :
    MMParseWidefield "HeLa_Control_MMStack_Pos0.ome.tif".data =
      some (⟨"HeLa_Control".data, none, none, none, some [0], none⟩,
            true) ∧
    parseFilename ["WidefieldImage".data] ⟨false, none⟩
        "HeLa_Control_MMStack_Pos0.ome.tif".data "WidefieldImage".data =
      ⟨⟨true, some ⟨"WidefieldImage".data,
          ⟨"HeLa_Control".data, none, none, none, some [0], none⟩⟩⟩,
        none, true⟩ :=
  ⟨(c9_widefield_no_tag_warns "HeLa_Control_MMStack_Pos0.ome.tif".data
      ⟨"HeLa_Control".data, none, none, none, some [0], none⟩
      (by decide) (by decide)).1,
   (c9_widefield_no_tag_warns "HeLa_Control_MMStack_Pos0.ome.tif".data
      ⟨"HeLa_Control".data, none, none, none, some [0], none⟩
      (by decide) (by decide)).2
     ["WidefieldImage".data] ⟨false, none⟩ (by decide) (by decide)⟩

/-- Claim C10, counterexample: in
"_MMStack_3_MMStack_Pos0_locResults.dat" the marker "_MMStack_" occurs
twice (the split of the raw name has three pieces), yet parseFilename
succeeds, because the leading underscore is stripped before the split and
only one occurrence survives.  This refutes the claim as stated. -/
theorem c10_counterexample :
    (splitOnList mmStackMarker
        "_MMStack_3_MMStack_Pos0_locResults.dat".data).length = 3 ∧
    parseFilename ["TestType".data] ⟨false, none⟩
        "_MMStack_3_MMStack_Pos0_locResults.dat".data "TestType".data =
      ⟨⟨true, some ⟨"TestType".data,
          ⟨"MMStack".data, some 3, none, none, some [0], none⟩⟩⟩,
        none, false⟩ :=
  ⟨by decide, by decide⟩

/-- Claim C10, amended: for every filename in which the marker "_MMStack_"
still occurs two or more times after taking the final path component and
stripping leading underscores (equivalently, the split yields three or
more pieces), parseFilename fails with ParseFilenameFailure even though
the marker is present. -/
theorem c10_extra_marker_fails (registry : List (List Char))
    (st : ParserState) (fn t : List Char) (h1 : t ∈ registry)
    (h2 : 3 ≤ (splitOnList mmStackMarker
        ((pyName fn).dropWhile (fun c => c = '_'))).length) :
    parseFilename registry st fn t =
      ⟨⟨false, none⟩, some ParserError.ParseFilenameFailure, false⟩ := by
  have hsplit := splitMM_none_of_three_pieces h2
  exact parseFilename_fail registry st fn t h1
    (MMParseWidefield_none_of_MMParse_none
      (MMParse_none_of_splitMM_none false hsplit))
    (MMParse_none_of_splitMM_none true hsplit)

/-- Claim C10 witness: a name in which the marker survives twice after
stripping, and the parse fails. -/
theorem c10_extra_marker_fails_witness :
    parseFilename ["TestType".data] ⟨false, none⟩
        "A_MMStack_B_MMStack_C".data "TestType".data =
      ⟨⟨false, none⟩, some ParserError.ParseFilenameFailure, false⟩ :=
  c10_extra_marker_fails ["TestType".data] ⟨false, none⟩
    "A_MMStack_B_MMStack_C".data "TestType".data (by decide) (by decide)
